import Mathlib

/-!
# Verification of the Toggl-to-Timekeep converter

Shallow embedding of `src/main.py` (the only source file of the
repository).  The program reads the text extracted from a Toggl Track
detailed-report PDF, splits it into daily sections, matches task lines
with a fixed regular expression, reconstructs start/end datetimes with a
day-rollover heuristic, removes per-section duplicates, and emits the
entries as JSON records.

Modelling conventions:
* Text extraction (`pdfplumber`) is external I/O; the embedded
  `parse_toggl_pdf` takes the extracted text (`full_text` in the code)
  in place of the file path.  Everything from the null-byte removal
  onwards is modelled from the source.
* Python `datetime` values appearing in the program always have
  `second = microsecond = 0`, so a datetime is modelled as a calendar
  date plus hour and minute.  Arithmetic that can overflow the Python
  datetime range (year 1..9999) is modelled by `Except`, as are the
  `ValueError`s of `datetime.replace` / `datetime.strptime`.
* The regular expressions of the source are fixed, so they are embedded
  as dedicated matching functions that follow Python's backtracking
  semantics (leftmost start, lazy `.+?` preferring the shortest prefix,
  alternatives in written order, greedy `\s+`/`\d+` whose boundaries
  with the following token are all forced because the character classes
  are disjoint).  `\d` and `\s` are modelled by their ASCII meaning;
  the exotic non-ASCII Unicode digits and spaces accepted by Python's
  `re` are out of scope of the embedding.
-/

/-! ## Character classes (ASCII fragment of Python's \s, \d) -/

/-- Python regex `\s` (ASCII part): space, tab, newline, carriage
return, vertical tab, form feed. -/
def isWS (c : Char) : Bool :=
  c = ' ' || c = '\t' || c = '\n' || c = '\r' || c = '\x0b' || c = '\x0c'

/-- Python regex `\d` (ASCII part): the characters '0'..'9'. -/
def isDig (c : Char) : Bool :=
  48 ≤ c.toNat && c.toNat ≤ 57

/-- Numeric value of a digit character, as used by Python `int()`. -/
def digVal (c : Char) : Nat := c.toNat - 48

/-! ## Dates and datetimes (Python `datetime` with second = 0) -/

/-- A Python `datetime.date`: proleptic Gregorian calendar date. -/
structure Date where
  year : Nat
  month : Nat
  day : Nat
deriving DecidableEq, Repr

/-- A Python `datetime` as used in the program: all datetimes that the
program builds have `second = microsecond = 0`, so only date, hour and
minute are carried. -/
structure DT where
  date : Date
  hour : Nat
  minute : Nat
deriving DecidableEq, Repr

/-- Gregorian leap-year rule (as Python's `calendar`/`datetime`). -/
def isLeap (y : Nat) : Bool :=
  y % 4 = 0 && (y % 100 ≠ 0 || y % 400 = 0)

/-- Days in a month of a given year (months are 1..12; the default arm
is never reached for the valid dates the program constructs). -/
def daysInMonth (y m : Nat) : Nat :=
  match m with
  | 1 => 31
  | 2 => if isLeap y then 29 else 28
  | 3 => 31
  | 4 => 30
  | 5 => 31
  | 6 => 30
  | 7 => 31
  | 8 => 31
  | 9 => 30
  | 10 => 31
  | 11 => 30
  | 12 => 31
  | _ => 31

/-- Strict order on dates: Python `date.__lt__` (lexicographic on
year, month, day). -/
def dateLt (a b : Date) : Prop :=
  a.year < b.year ∨
    (a.year = b.year ∧
      (a.month < b.month ∨ (a.month = b.month ∧ a.day < b.day)))

instance (a b : Date) : Decidable (dateLt a b) := by
  unfold dateLt; exact inferInstance

/-- Strict order on datetimes: Python `datetime.__lt__` (lexicographic
on date, hour, minute; seconds and microseconds are 0 throughout). -/
def dtLt (a b : DT) : Prop :=
  dateLt a.date b.date ∨
    (a.date = b.date ∧
      (a.hour < b.hour ∨ (a.hour = b.hour ∧ a.minute < b.minute)))

instance (a b : DT) : Decidable (dtLt a b) := by
  unfold dtLt; exact inferInstance

/-- Errors the Python code can raise while parsing: `ValueError`
(from `datetime.strptime` / `datetime.replace`) and `OverflowError`
(from date arithmetic leaving the year range 1..9999). -/
inductive PyErr where
  | valueError : PyErr
  | overflowError : PyErr
deriving DecidableEq, Repr

/-- `date + timedelta(days=1)` on the date part of a midnight datetime:
the successor calendar day, or `OverflowError` past 9999-12-31 (the
Python `datetime.max` limit). -/
def nextDay (d : Date) : Except PyErr Date :=
  if d.day < daysInMonth d.year d.month then .ok ⟨d.year, d.month, d.day + 1⟩
  else if d.month < 12 then .ok ⟨d.year, d.month + 1, 1⟩
  else if d.year < 9999 then .ok ⟨d.year + 1, 1, 1⟩
  else .error .overflowError

/-- `dt + timedelta(minutes=1)` for a datetime with `second = 0`. -/
def addMinute (t : DT) : Except PyErr DT :=
  if t.minute < 59 then .ok ⟨t.date, t.hour, t.minute + 1⟩
  else if t.hour < 23 then .ok ⟨t.date, t.hour + 1, 0⟩
  else Except.map (fun d2 => ⟨d2, 0, 0⟩) (nextDay t.date)

/-! ## `datetime.strptime(start_date_str, "%Y-%m-%d")`

CPython's `_strptime` turns the format into the anchored regex
`(?P<Y>\d\d\d\d)-(?P<m>1[0-2]|0[1-9]|[1-9])-(?P<d>3[01]|[12]\d|0[1-9]|[1-9])`,
requires the whole string to be consumed, and then validates the
values through the `datetime` constructor (year 1..9999, day within
month).  A failure at any stage is a `ValueError`. -/

/-- Candidate matches for the month group `1[0-2]|0[1-9]|[1-9]`, in
the backtracking preference order of the regex engine. -/
def monthCands : List Char → List (Nat × List Char)
  | [] => []
  | [c1] => if isDig c1 && c1 ≠ '0' then [(digVal c1, [])] else []
  | c1 :: c2 :: r =>
    (if c1 = '1' && ('0' ≤ c2 && c2 ≤ '2') then [(10 + digVal c2, r)]
     else if c1 = '0' && ('1' ≤ c2 && c2 ≤ '9') then [(digVal c2, r)]
     else [])
    ++ (if isDig c1 && c1 ≠ '0' then [(digVal c1, c2 :: r)] else [])

/-- Candidate matches for the day group `3[01]|[12]\d|0[1-9]|[1-9]`,
in backtracking preference order. -/
def dayCands : List Char → List (Nat × List Char)
  | [] => []
  | [c1] => if isDig c1 && c1 ≠ '0' then [(digVal c1, [])] else []
  | c1 :: c2 :: r =>
    (if c1 = '3' && ('0' ≤ c2 && c2 ≤ '1') then [(30 + digVal c2, r)]
     else if ('1' ≤ c1 && c1 ≤ '2') && isDig c2 then
       [(10 * digVal c1 + digVal c2, r)]
     else if c1 = '0' && ('1' ≤ c2 && c2 ≤ '9') then [(digVal c2, r)]
     else [])
    ++ (if isDig c1 && c1 ≠ '0' then [(digVal c1, c2 :: r)] else [])

/-- First day candidate that consumes the rest of the string. -/
def tryDays : List (Nat × List Char) → Option Nat
  | [] => none
  | (dv, r) :: more => if r.isEmpty then some dv else tryDays more

/-- First month candidate followed by a '-' and a day candidate that
reaches the end of the string. -/
def tryMonths : List (Nat × List Char) → Option (Nat × Nat)
  | [] => none
  | (m, r1) :: more =>
    match r1 with
    | '-' :: r2 =>
      match tryDays (dayCands r2) with
      | some dv => some (m, dv)
      | none => tryMonths more
    | _ => tryMonths more

/-- `datetime.strptime(s, "%Y-%m-%d")`, returning the date on success
and `none` where Python raises `ValueError`. -/
def strptimeYMD (s : String) : Option Date :=
  match s.toList with
  | c1 :: c2 :: c3 :: c4 :: '-' :: rest =>
    if isDig c1 && isDig c2 && isDig c3 && isDig c4 then
      let y := 1000 * digVal c1 + 100 * digVal c2 + 10 * digVal c3 + digVal c4
      match tryMonths (monthCands rest) with
      | some (m, dv) =>
        if 1 ≤ y && dv ≤ daysInMonth y m then some ⟨y, m, dv⟩ else none
      | none => none
    else none
  | _ => none

/-! ## The task-line regex

`(.+?)\s+(?:\d{6}|\d+:\d+:\d+|\d+:\d+\s+min|\d+\s+min|\d+\s+sec)\s+(\d{4})\s+(\d{4})\s*$`

applied per line (the lines contain no newline, having been produced by
`section.split("\n")`).  `re.search` and the anchored `re.match` used by
the code coincide here: any match from a later start extends to a match
from position 0 by absorbing the skipped characters into `.+?`. -/

/-- `\s+` (greedy; its boundary is forced because every following token
starts with a non-space character). -/
def skipWS1 (cs : List Char) : Option (List Char) :=
  match cs with
  | c :: r => if isWS c then some (r.dropWhile isWS) else none
  | [] => none

/-- `\d+` (greedy; always followed by a non-digit token here). -/
def digits1 (cs : List Char) : Option (List Char) :=
  match cs with
  | c :: r => if isDig c then some (r.dropWhile isDig) else none
  | [] => none

/-- A single literal character. -/
def expectCh (c : Char) (cs : List Char) : Option (List Char) :=
  match cs with
  | c2 :: r => if c2 = c then some r else none
  | [] => none

/-- A literal string. -/
def litM (pat cs : List Char) : Option (List Char) :=
  if pat.isPrefixOf cs then some (cs.drop pat.length) else none

/-- `\d{n}` (exactly n digits). -/
def digitsN : Nat → List Char → Option (List Char)
  | 0, cs => some cs
  | n + 1, cs =>
    match cs with
    | c :: r => if isDig c then digitsN n r else none
    | [] => none

/-- A captured `\d{4}` group, decoded as Python does with
`int(s[:2])`, `int(s[2:])` (hour, minute). -/
def take4digits (cs : List Char) : Option ((Nat × Nat) × List Char) :=
  match cs with
  | a :: b :: c :: d :: r =>
    if isDig a && isDig b && isDig c && isDig d then
      some ((10 * digVal a + digVal b, 10 * digVal c + digVal d), r)
    else none
  | _ => none

/-- Duration alternative `\d{6}`. -/
def durA1 (cs : List Char) : Option (List Char) := digitsN 6 cs

/-- Duration alternative `\d+:\d+:\d+`. -/
def durA2 (cs : List Char) : Option (List Char) := do
  let r1 ← digits1 cs
  let r2 ← expectCh ':' r1
  let r3 ← digits1 r2
  let r4 ← expectCh ':' r3
  digits1 r4

/-- Duration alternative `\d+:\d+\s+min`. -/
def durA3 (cs : List Char) : Option (List Char) := do
  let r1 ← digits1 cs
  let r2 ← expectCh ':' r1
  let r3 ← digits1 r2
  let r4 ← skipWS1 r3
  litM "min".toList r4

/-- Duration alternative `\d+\s+min`. -/
def durA4 (cs : List Char) : Option (List Char) := do
  let r1 ← digits1 cs
  let r2 ← skipWS1 r1
  litM "min".toList r2

/-- Duration alternative `\d+\s+sec`. -/
def durA5 (cs : List Char) : Option (List Char) := do
  let r1 ← digits1 cs
  let r2 ← skipWS1 r1
  litM "sec".toList r2

/-- `\s+(\d{4})\s+(\d{4})\s*$`: the two captured times after the
duration, requiring only whitespace to the end of the line. -/
def tryTimes (cs : List Char) : Option ((Nat × Nat) × (Nat × Nat)) := do
  let r1 ← skipWS1 cs
  let (st, r2) ← take4digits r1
  let r3 ← skipWS1 r2
  let (en, r4) ← take4digits r3
  if (r4.dropWhile isWS).isEmpty then some (st, en) else none

/-- Everything after the lazy `(.+?)` group:
`\s+(?:DUR)\s+(\d{4})\s+(\d{4})\s*$`, trying the five duration
alternatives in the regex's written order. -/
def matchAfterName (cs : List Char) : Option ((Nat × Nat) × (Nat × Nat)) := do
  let r ← skipWS1 cs
  (durA1 r >>= tryTimes) <|> (durA2 r >>= tryTimes) <|>
    (durA3 r >>= tryTimes) <|> (durA4 r >>= tryTimes) <|>
      (durA5 r >>= tryTimes)

/-- Lazy scan of `(.+?)`: the shortest non-empty prefix (of non-newline
characters, accumulated reversed in `pre`) whose remainder matches
`matchAfterName`. -/
def lineMatchA : List Char → List Char →
    Option (List Char × ((Nat × Nat) × (Nat × Nat)))
  | _, [] => none
  | pre, c :: r2 =>
    match matchAfterName (c :: r2) with
    | some t => some (pre.reverse, t)
    | none => if c = '\n' then none else lineMatchA (c :: pre) r2

/-- The full task-line regex: returns the `(.+?)` capture and the two
`(\d{4})` captures decoded as (hour, minute) pairs. -/
def lineMatch (cs : List Char) : Option (List Char × ((Nat × Nat) × (Nat × Nat))) :=
  match cs with
  | [] => none
  | c :: r => if c = '\n' then none else lineMatchA [c] r

/-! ## Splitting the text -/

/-- Python `str.split("\n")`. -/
def splitOnNL : List Char → List (List Char)
  | [] => [[]]
  | '\n' :: r => [] :: splitOnNL r
  | c :: r =>
    match splitOnNL r with
    | h :: t => (c :: h) :: t
    | [] => [[c]]

/-- Python `str.strip()` (ASCII whitespace). -/
def stripWS (cs : List Char) : List Char :=
  ((cs.dropWhile isWS).reverse.dropWhile isWS).reverse

/-- Python `needle in hay` substring test. -/
def containsSub (needle : List Char) : List Char → Bool
  | [] => needle.isEmpty
  | c :: r => needle.isPrefixOf (c :: r) || containsSub needle r

/-- Greedy `\s*` (the following literal starts with a non-space
letter, so the boundary is forced). -/
def skipWSg (cs : List Char) : List Char := cs.dropWhile isWS

/-- Lazy `.*?to`: skip the least number of non-newline characters
until the literal "to". -/
def findTo : List Char → Option (List Char)
  | [] => none
  | c :: r =>
    if ['t', 'o'].isPrefixOf (c :: r) then some r.tail
    else if c = '\n' then none else findTo r

/-- One match of the section-marker regex `Alltime\s*entries\s*from.*?to`
at the start of `cs`, returning the rest of the text after the match. -/
def matchMarker (cs : List Char) : Option (List Char) :=
  match litM "Alltime".toList cs with
  | none => none
  | some r1 =>
    match litM "entries".toList (skipWSg r1) with
    | none => none
    | some r2 =>
      match litM "from".toList (skipWSg r2) with
      | none => none
      | some r3 => findTo r3

/-- Scan for non-overlapping marker matches, left to right, cutting the
text at each match (`re.split` with a group-free pattern).  The `fuel`
argument only bounds the recursion; it starts at the length of the text
and never runs out because every step consumes at least one character
(see `splitAux_fuel_irrel`). -/
def splitAux : Nat → List Char → List Char → List (List Char)
  | 0, acc, _ => [acc.reverse]
  | fuel + 1, acc, cs =>
    match cs with
    | [] => [acc.reverse]
    | c :: rest =>
      match matchMarker cs with
      | some r => acc.reverse :: splitAux fuel [] r
      | none => splitAux fuel (c :: acc) rest

/-- `re.split(r"Alltime\s*entries\s*from.*?to", full_text)`. -/
def splitSections (cs : List Char) : List (List Char) :=
  splitAux cs.length [] cs

/-! ## The parsing pipeline -/

/-- One element of the `section_entries` list: the stripped task name
and the two reconstructed datetimes.  Equality of `RawEntry` is exactly
equality of the `(task_name, start_dt, end_dt)` key used by the
duplicate filter. -/
structure RawEntry where
  name : List Char
  start : DT
  stop : DT
deriving DecidableEq, Repr

/-- Datetime reconstruction for one matched line (lines 89-116 of
`main.py`): validate the clock fields (`datetime.replace` raises
`ValueError` outside 0..23 / 0..59), move the end across midnight when
it precedes the start, and widen zero-length entries by one minute. -/
def mkEntry (d : Date) (pre : List Char) (sh sm eh em : Nat) :
    Except PyErr RawEntry :=
  if 23 < sh || 59 < sm then .error .valueError
  else if 23 < eh || 59 < em then .error .valueError
  else
    match (if dtLt (⟨d, eh, em⟩ : DT) ⟨d, sh, sm⟩ then
             Except.map (fun d2 => (⟨d2, eh, em⟩ : DT)) (nextDay d)
           else .ok ⟨d, eh, em⟩) with
    | .error e => .error e
    | .ok edt1 =>
      match (if edt1 = (⟨d, sh, sm⟩ : DT) then addMinute edt1 else .ok edt1) with
      | .error e => .error e
      | .ok edt2 => .ok ⟨stripWS pre, ⟨d, sh, sm⟩, edt2⟩

/-- Processing of one line of a section: no match means no entry and
no error; a match yields an entry (or propagates the error of the
datetime reconstruction). -/
def processLine (d : Date) (line : List Char) :
    Except PyErr (Option RawEntry) :=
  match lineMatch line with
  | none => .ok none
  | some (pre, (sh, sm), (eh, em)) =>
    Except.map some (mkEntry d pre sh sm eh em)

/-- The line loop of one section, building `section_entries` in order;
the first error aborts the whole parse, as a raised exception does. -/
def collectLines (d : Date) : List (List Char) → Except PyErr (List RawEntry)
  | [] => .ok []
  | l :: ls =>
    match processLine d l with
    | .error e => .error e
    | .ok none => collectLines d ls
    | .ok (some r) => Except.map (fun rest => r :: rest) (collectLines d ls)

/-- The duplicate filter of lines 123-134: keep an entry only when its
`(name, start, end)` key has not been seen before in this section. -/
def dedupAux (seen : List RawEntry) : List RawEntry → List RawEntry
  | [] => []
  | e :: es =>
    if e ∈ seen then dedupAux seen es
    else e :: dedupAux (e :: seen) es

/-- `section_entries` of one section. -/
def sectionEntriesOf (d : Date) (s : List Char) : Except PyErr (List RawEntry) :=
  collectLines d (splitOnNL s)

/-- The skip conditions of lines 56-66: a blank section, or a section
containing neither "DESCRIPTION" nor "TIME". -/
def sectionSkipped (s : List Char) : Bool :=
  (stripWS s).isEmpty ||
    (!containsSub "DESCRIPTION".toList s && !containsSub "TIME".toList s)

/-- The section loop (lines 55-158): skipped sections leave the date
unchanged; a section yielding entries contributes its deduplicated
entries and advances the current date by one day. -/
def parseSections (d : Date) : List (List Char) → Except PyErr (List RawEntry)
  | [] => .ok []
  | s :: rest =>
    if sectionSkipped s then parseSections d rest
    else
      match sectionEntriesOf d s with
      | .error e => .error e
      | .ok es =>
        if es.isEmpty then parseSections d rest
        else
          match nextDay d with
          | .error e => .error e
          | .ok d2 =>
            Except.map (fun more => dedupAux [] es ++ more)
              (parseSections d2 rest)

/-- `parse_toggl_pdf` from the extracted text onward: parse the start
date (`ValueError` on a malformed date string), remove null bytes, cut
the text into sections and run the section loop. -/
def parse_toggl_pdf (text startDateStr : String) :
    Except PyErr (List RawEntry) :=
  match strptimeYMD startDateStr with
  | none => .error .valueError
  | some d0 =>
    parseSections d0 (splitSections (text.toList.filter (fun c => c ≠ '\x00')))

/-! ## JSON output -/

/-- The fragment of JSON the program emits. -/
inductive Json where
  | null : Json
  | jstr : String → Json
  | jarr : List Json → Json
  | jobj : List (String × Json) → Json

/-- Digit character of `n % 10` (zero-padded decimal printing). -/
def digitCh (n : Nat) : Char := Char.ofNat (48 + n % 10)

/-- Two-digit zero-padded field (`%m`, `%d`, `%H`, `%M`; the values the
program formats are at most two digits wide). -/
def pad2 (n : Nat) : List Char := [digitCh (n / 10), digitCh n]

/-- `%Y` as CPython (delegating to the platform strftime) prints it:
the year as a plain unpadded decimal number — year 5 prints "5", not
"0005".  `datetime` years are 1..9999, so at most four digits arise. -/
def fmtYear (y : Nat) : List Char :=
  if y < 10 then [digitCh y]
  else if y < 100 then [digitCh (y / 10), digitCh y]
  else if y < 1000 then [digitCh (y / 100), digitCh (y / 10), digitCh y]
  else [digitCh (y / 1000), digitCh (y / 100), digitCh (y / 10), digitCh y]

/-- Character list of `dt.strftime("%Y-%m-%dT%H:%M:00.000Z")` (seconds
are hard-coded as "00.000Z" in the format string). -/
def isoFormatL (t : DT) : List Char :=
  fmtYear t.date.year ++ '-' :: pad2 t.date.month ++
    '-' :: pad2 t.date.day ++ 'T' :: pad2 t.hour ++
      ':' :: pad2 t.minute ++ [':', '0', '0', '.', '0', '0', '0', 'Z']

/-- `dt.strftime("%Y-%m-%dT%H:%M:00.000Z")` as a string. -/
def isoFormat (t : DT) : String := String.mk (isoFormatL t)

/-- The output dict of lines 146-153, with its four fields in order. -/
def entryDict (e : RawEntry) : Json :=
  .jobj [("name", .jstr (String.mk e.name)),
         ("startTime", .jstr (isoFormat e.start)),
         ("endTime", .jstr (isoFormat e.stop)),
         ("subEntries", .null)]

/-- The emitted JSON document `{"entries": [...]}` (line 167 of
`make_timekeep_block` and line 213 of `__main__`). -/
def emitTimekeep (text startDateStr : String) : Except PyErr Json :=
  Except.map
    (fun es => Json.jobj [("entries", Json.jarr (es.map entryDict))])
    (parse_toggl_pdf text startDateStr)

/-- The fixed ISO-8601 shape `DDDD-DD-DDTDD:DD:00.000Z` with decimal
digits `D` — the shape of the emitted timestamps exactly when the year
has four digits (the platform strftime does not zero-pad `%Y`). -/
def isoShapeB (s : String) : Bool :=
  match s.toList with
  | [y1, y2, y3, y4, a1, m1, m2, a2, d1, d2, a3,
     h1, h2, a4, n1, n2, a5, z1, z2, z3, z4, z5, z6, z7] =>
    isDig y1 && isDig y2 && isDig y3 && isDig y4 && a1 = '-' &&
      isDig m1 && isDig m2 && a2 = '-' && isDig d1 && isDig d2 &&
        a3 = 'T' && isDig h1 && isDig h2 && a4 = ':' && isDig n1 &&
          isDig n2 && a5 = ':' && z1 = '0' && z2 = '0' && z3 = '.' &&
            z4 = '0' && z5 = '0' && z6 = '0' && z7 = 'Z'
  | _ => false

/-! ## Derived notions used by the invariants -/

/-- A section that contributes entries: not skipped, and at least one
of its lines matches the task-line regex. -/
def yieldsB (s : List Char) : Bool :=
  !sectionSkipped s && (splitOnNL s).any (fun l => (lineMatch l).isSome)

/-- Number of entry-yielding sections in a list. -/
def countYield (ss : List (List Char)) : Nat :=
  (ss.filter yieldsB).length

/-- `n`-fold iteration of `nextDay` (the start date advanced by `n`
days). -/
def iterNext (d : Date) : Nat → Except PyErr Date
  | 0 => .ok d
  | n + 1 =>
    match nextDay d with
    | .error e => .error e
    | .ok d2 => iterNext d2 n

/-! ## Basic lemmas -/

theorem exceptMap_ok {ε α β : Type} {f : α → β} {x : Except ε α} {y : β}
    (h : Except.map f x = .ok y) : ∃ a, x = .ok a ∧ y = f a := by
  cases x with
  | error e => simp [Except.map] at h
  | ok a => exact ⟨a, rfl, by simpa [Except.map] using h.symm⟩

theorem exceptMap_ok_of {ε α β : Type} (f : α → β) {x : Except ε α} {a : α}
    (h : x = .ok a) : Except.map f x = .ok (f a) := by
  subst h; rfl

theorem dateLt_ne {a b : Date} (h : dateLt a b) : a ≠ b := by
  rintro rfl
  simp [dateLt] at h

theorem nextDay_lt {d d2 : Date} (h : nextDay d = .ok d2) : dateLt d d2 := by
  unfold nextDay at h
  split at h
  · cases h; simp [dateLt]
  · split at h
    · cases h; simp [dateLt]
    · split at h
      · cases h; simp [dateLt]
      · cases h

theorem addMinute_lt {t t2 : DT} (h : addMinute t = .ok t2) : dtLt t t2 := by
  unfold addMinute at h
  split at h
  · cases h; simp [dtLt]
  · split at h
    · cases h; simp [dtLt]
    · obtain ⟨d2, hd2, rfl⟩ := exceptMap_ok h
      exact Or.inl (nextDay_lt hd2)

theorem dt_total {a b : DT} (h1 : ¬ dtLt b a) (h2 : b ≠ a) : dtLt a b := by
  obtain ⟨⟨ay, am, ad⟩, ah, an⟩ := a
  obtain ⟨⟨cy, cm, cd⟩, ch, cn⟩ := b
  simp [dtLt, dateLt, DT.mk.injEq, Date.mk.injEq] at *
  omega

/-! ## Specification of one matched line -/

theorem dtLt_irrefl (a : DT) : ¬ dtLt a a := by
  obtain ⟨⟨ay, am, ad⟩, ah, an⟩ := a
  simp [dtLt, dateLt]

theorem mkEntry_spec {d : Date} {pre : List Char} {sh sm eh em : Nat}
    {e : RawEntry} (h : mkEntry d pre sh sm eh em = .ok e) :
    e.name = stripWS pre ∧ e.start = ⟨d, sh, sm⟩ ∧ dtLt e.start e.stop ∧
    (dtLt (⟨d, eh, em⟩ : DT) ⟨d, sh, sm⟩ →
      ∃ d2, nextDay d = .ok d2 ∧ e.stop = ⟨d2, eh, em⟩) ∧
    (sh = eh → sm = em → addMinute ⟨d, sh, sm⟩ = .ok e.stop) := by
  unfold mkEntry at h
  split at h
  · cases h
  split at h
  · cases h
  split at h
  · cases h
  rename_i edt1 heq1
  split at h
  · cases h
  rename_i edt2 heq2
  cases h
  by_cases hov : dtLt (⟨d, eh, em⟩ : DT) ⟨d, sh, sm⟩
  · rw [if_pos hov] at heq1
    obtain ⟨d2, hnd, hedt1⟩ := exceptMap_ok heq1
    subst hedt1
    have hne : (⟨d2, eh, em⟩ : DT) ≠ ⟨d, sh, sm⟩ := by
      intro heq
      exact dateLt_ne (nextDay_lt hnd) (congrArg DT.date heq).symm
    rw [if_neg hne] at heq2
    cases heq2
    refine ⟨rfl, rfl, Or.inl (nextDay_lt hnd), fun _ => ⟨d2, hnd, rfl⟩,
      fun hh hm => ?_⟩
    subst hh; subst hm
    exact absurd hov (dtLt_irrefl _)
  · rw [if_neg hov] at heq1
    cases heq1
    by_cases heqq : (⟨d, eh, em⟩ : DT) = ⟨d, sh, sm⟩
    · rw [if_pos heqq] at heq2
      refine ⟨rfl, rfl, heqq ▸ addMinute_lt heq2, fun hc => absurd hc hov,
        fun hh hm => ?_⟩
      rw [← heqq]
      exact heq2
    · rw [if_neg heqq] at heq2
      cases heq2
      refine ⟨rfl, rfl, dt_total hov heqq, fun hc => absurd hc hov,
        fun hh hm => ?_⟩
      exact absurd (by rw [hh, hm]) heqq

/-! ## Lemmas about line processing -/

theorem processLine_none {d : Date} {l : List Char}
    (h : lineMatch l = none) : processLine d l = .ok none := by
  simp [processLine, h]

theorem processLine_ok_some {d : Date} {l : List Char} {e : RawEntry}
    (h : processLine d l = .ok (some e)) :
    ∃ pre sh sm eh em, lineMatch l = some (pre, (sh, sm), (eh, em)) ∧
      mkEntry d pre sh sm eh em = .ok e := by
  unfold processLine at h
  cases hm : lineMatch l with
  | none => rw [hm] at h; cases h
  | some t =>
    obtain ⟨pre, ⟨sh, sm⟩, eh, em⟩ := t
    rw [hm] at h
    obtain ⟨a, ha, hae⟩ := exceptMap_ok h
    cases hae
    exact ⟨pre, sh, sm, eh, em, rfl, ha⟩

theorem collectLines_mem {d : Date} {ls : List (List Char)}
    {es : List RawEntry} (h : collectLines d ls = .ok es) :
    ∀ e ∈ es, ∃ l ∈ ls, processLine d l = .ok (some e) := by
  induction ls generalizing es with
  | nil =>
    cases h
    intro e he
    cases he
  | cons l ls ih =>
    unfold collectLines at h
    cases hp : processLine d l with
    | error err => rw [hp] at h; cases h
    | ok o =>
      rw [hp] at h
      cases o with
      | none =>
        intro e he
        obtain ⟨l2, hl2, hp2⟩ := ih h e he
        exact ⟨l2, List.mem_cons_of_mem _ hl2, hp2⟩
      | some r =>
        obtain ⟨rest, hrest, hcons⟩ := exceptMap_ok h
        subst hcons
        intro e he
        rcases List.mem_cons.mp he with rfl | he2
        · exact ⟨l, List.mem_cons_self _ _, hp⟩
        · obtain ⟨l2, hl2, hp2⟩ := ih hrest e he2
          exact ⟨l2, List.mem_cons_of_mem _ hl2, hp2⟩

theorem collectLines_nomatch {d : Date} {ls : List (List Char)}
    (h : ∀ l ∈ ls, lineMatch l = none) : collectLines d ls = .ok [] := by
  induction ls with
  | nil => rfl
  | cons l ls ih =>
    unfold collectLines
    rw [processLine_none (h l (List.mem_cons_self _ _))]
    exact ih fun l2 hl2 => h l2 (List.mem_cons_of_mem _ hl2)

theorem collectLines_ne_nil {d : Date} {ls : List (List Char)}
    {es : List RawEntry} (h : collectLines d ls = .ok es)
    (hm : ∃ l ∈ ls, (lineMatch l).isSome = true) : es ≠ [] := by
  induction ls generalizing es with
  | nil =>
    obtain ⟨l, hl, _⟩ := hm
    cases hl
  | cons l ls ih =>
    unfold collectLines at h
    cases hp : processLine d l with
    | error err => rw [hp] at h; cases h
    | ok o =>
      rw [hp] at h
      cases o with
      | none =>
        obtain ⟨l0, hl0, hsome⟩ := hm
        rcases List.mem_cons.mp hl0 with rfl | h2
        · exfalso
          obtain ⟨t, ht⟩ := Option.isSome_iff_exists.mp hsome
          obtain ⟨pre, ⟨sh, sm⟩, eh, em⟩ := t
          unfold processLine at hp
          rw [ht] at hp
          cases hme : mkEntry d pre sh sm eh em <;> simp [hme, Except.map] at hp
        · exact ih h ⟨l0, h2, hsome⟩
      | some r =>
        obtain ⟨rest, hrest, hcons⟩ := exceptMap_ok h
        subst hcons
        simp

theorem collectLines_skip {d : Date} {l : List Char} (ls1 ls2 : List (List Char))
    (h : lineMatch l = none) :
    collectLines d (ls1 ++ l :: ls2) = collectLines d (ls1 ++ ls2) := by
  induction ls1 with
  | nil =>
    show collectLines d (l :: ls2) = collectLines d ls2
    conv_lhs => unfold collectLines
    rw [processLine_none h]
  | cons l1 ls1 ih =>
    show collectLines d (l1 :: (ls1 ++ l :: ls2)) =
      collectLines d (l1 :: (ls1 ++ ls2))
    unfold collectLines
    rw [ih]

/-! ## Lemmas about the duplicate filter -/

theorem dedupAux_sublist : ∀ (es : List RawEntry) (seen : List RawEntry),
    (dedupAux seen es).Sublist es := by
  intro es
  induction es with
  | nil => intro seen; exact List.Sublist.refl _
  | cons e es ih =>
    intro seen
    unfold dedupAux
    split
    · exact (ih seen).cons _
    · exact (ih (e :: seen)).cons₂ _

theorem dedupAux_mem_of {es : List RawEntry} {seen : List RawEntry}
    {e : RawEntry} (h : e ∈ dedupAux seen es) : e ∈ es :=
  (dedupAux_sublist es seen).mem h

theorem dedupAux_not_seen : ∀ (es seen : List RawEntry) (e : RawEntry),
    e ∈ dedupAux seen es → e ∉ seen := by
  intro es
  induction es with
  | nil => intro seen e h; cases h
  | cons e2 es ih =>
    intro seen e h
    unfold dedupAux at h
    split at h
    · exact ih seen e h
    · rcases List.mem_cons.mp h with rfl | h2
      · assumption
      · intro hseen
        exact ih (e2 :: seen) e h2 (List.mem_cons_of_mem _ hseen)

theorem dedupAux_nodup : ∀ (es seen : List RawEntry),
    (dedupAux seen es).Nodup := by
  intro es
  induction es with
  | nil => intro seen; exact List.nodup_nil
  | cons e es ih =>
    intro seen
    unfold dedupAux
    split
    · exact ih seen
    · refine List.nodup_cons.mpr ⟨fun hmem => ?_, ih (e :: seen)⟩
      exact dedupAux_not_seen es (e :: seen) e hmem (List.mem_cons_self _ _)

theorem dedupAux_complete : ∀ (es seen : List RawEntry) (e : RawEntry),
    e ∈ es → e ∉ seen → e ∈ dedupAux seen es := by
  intro es
  induction es with
  | nil => intro seen e h; cases h
  | cons e2 es ih =>
    intro seen e h hn
    unfold dedupAux
    rcases List.mem_cons.mp h with rfl | h2
    · rw [if_neg hn]
      exact List.mem_cons_self _ _
    · split
      · exact ih seen e h2 hn
      · by_cases he : e = e2
        · subst he
          exact List.mem_cons_self _ _
        · refine List.mem_cons_of_mem _ (ih (e2 :: seen) e h2 ?_)
          intro hmem
          rcases List.mem_cons.mp hmem with h3 | h3
          · exact he h3
          · exact hn h3

/-! ## Lemmas about the section loop -/

theorem collectLines_dates {d : Date} {ls : List (List Char)}
    {es : List RawEntry} (h : collectLines d ls = .ok es) :
    ∀ e ∈ es, e.start.date = d := by
  intro e he
  obtain ⟨l, hl, hpl⟩ := collectLines_mem h e he
  obtain ⟨pre, sh, sm, eh, em, _, hmk⟩ := processLine_ok_some hpl
  rw [(mkEntry_spec hmk).2.1]

theorem parseSections_skip {d : Date} {s : List Char} (rest : List (List Char))
    (h : sectionSkipped s = true) :
    parseSections d (s :: rest) = parseSections d rest := by
  conv_lhs => unfold parseSections
  rw [if_pos h]

theorem parseSections_noYield {d : Date} {s : List Char}
    (rest : List (List Char)) (h : yieldsB s = false) :
    parseSections d (s :: rest) = parseSections d rest := by
  by_cases hs : sectionSkipped s = true
  · exact parseSections_skip rest hs
  · have hs' : sectionSkipped s = false := by
      simpa using hs
    have hany : (splitOnNL s).any (fun l => (lineMatch l).isSome) = false := by
      unfold yieldsB at h
      rw [hs'] at h
      simpa using h
    have hall : ∀ l ∈ splitOnNL s, lineMatch l = none := by
      intro l hl
      have h2 := List.any_eq_false.mp hany l hl
      cases hlm : lineMatch l with
      | none => rfl
      | some t => rw [hlm] at h2; simp at h2
    have hnil : sectionEntriesOf d s = .ok [] := collectLines_nomatch hall
    conv_lhs => unfold parseSections
    rw [if_neg hs, hnil]
    rfl

theorem parseSections_yield {d : Date} {s : List Char}
    (rest : List (List Char)) (h : yieldsB s = true) :
    parseSections d (s :: rest) =
      Except.bind (sectionEntriesOf d s) (fun es =>
        Except.bind (nextDay d) (fun d2 =>
          Except.map (fun more => dedupAux [] es ++ more)
            (parseSections d2 rest))) := by
  have hs : sectionSkipped s = false := by
    unfold yieldsB at h
    cases hq : sectionSkipped s
    · rfl
    · rw [hq] at h; simp at h
  have hany : ∃ l ∈ splitOnNL s, (lineMatch l).isSome = true := by
    unfold yieldsB at h
    rw [hs] at h
    simpa [List.any_eq_true] using h
  conv_lhs => unfold parseSections
  rw [if_neg (by simp [hs])]
  cases hse : sectionEntriesOf d s with
  | error e => rfl
  | ok es =>
    have hne : es ≠ [] := collectLines_ne_nil hse hany
    have hie : es.isEmpty = false := by
      cases es
      · exact absurd rfl hne
      · rfl
    simp only [Except.bind, hie, Bool.false_eq_true, if_false]
    cases nextDay d <;> rfl

theorem exceptBind_ok {ε α β : Type} {x : Except ε α} {f : α → Except ε β}
    {b : β} (h : Except.bind x f = .ok b) : ∃ a, x = .ok a ∧ f a = .ok b := by
  cases x with
  | error e => simp [Except.bind] at h
  | ok a => exact ⟨a, rfl, h⟩

theorem parseSections_lt : ∀ (ss : List (List Char)) {d : Date}
    {out : List RawEntry}, parseSections d ss = .ok out →
    ∀ e ∈ out, dtLt e.start e.stop := by
  intro ss
  induction ss with
  | nil =>
    intro d out h e he
    cases h
    cases he
  | cons s rest ih =>
    intro d out h e he
    unfold parseSections at h
    split at h
    · exact ih h e he
    · split at h
      · cases h
      · rename_i es hse
        split at h
        · exact ih h e he
        · split at h
          · cases h
          · rename_i d2 hnd
            obtain ⟨more, hmore, hout⟩ := exceptMap_ok h
            subst hout
            rcases List.mem_append.mp he with h1 | h2
            · obtain ⟨l, hl, hpl⟩ :=
                collectLines_mem hse e (dedupAux_mem_of h1)
              obtain ⟨pre, sh, sm, eh, em, _, hmk⟩ := processLine_ok_some hpl
              exact (mkEntry_spec hmk).2.2.1
            · exact ih hmore e h2

theorem parseSections_cons_ok {d : Date} {s : List Char}
    {rest : List (List Char)} {out es1 : List RawEntry}
    (h : parseSections d (s :: rest) = .ok out)
    (hs : sectionSkipped s = false)
    (hse : sectionEntriesOf d s = .ok es1) (hne : es1 ≠ []) :
    ∃ d2 more, nextDay d = .ok d2 ∧ parseSections d2 rest = .ok more ∧
      out = dedupAux [] es1 ++ more := by
  have hex : ∃ l ∈ splitOnNL s, (lineMatch l).isSome = true := by
    by_contra hno
    push_neg at hno
    have hall : ∀ l ∈ splitOnNL s, lineMatch l = none := by
      intro l hl
      have h2 := hno l hl
      cases hlm : lineMatch l with
      | none => rfl
      | some t => rw [hlm] at h2; simp at h2
    have := collectLines_nomatch (d := d) hall
    rw [show collectLines d (splitOnNL s) = sectionEntriesOf d s from rfl,
      hse] at this
    cases this
    exact hne rfl
  have hy : yieldsB s = true := by
    unfold yieldsB
    rw [hs]
    simpa [List.any_eq_true] using hex
  rw [parseSections_yield rest hy, hse] at h
  simp only [Except.bind] at h
  cases hnd : nextDay d with
  | error e => rw [hnd] at h; cases h
  | ok d2 =>
    rw [hnd] at h
    obtain ⟨more, hmore, hout⟩ := exceptMap_ok h
    exact ⟨d2, more, rfl, hmore, hout⟩

theorem countYield_cons_false {s : List Char} {ss : List (List Char)}
    (h : yieldsB s = false) : countYield (s :: ss) = countYield ss := by
  simp [countYield, List.filter_cons, h]

theorem countYield_cons_true {s : List Char} {ss : List (List Char)}
    (h : yieldsB s = true) : countYield (s :: ss) = countYield ss + 1 := by
  simp [countYield, List.filter_cons, h]

theorem iterNext_succ {d d2 : Date} {n : Nat} (h : nextDay d = .ok d2) :
    iterNext d (n + 1) = iterNext d2 n := by
  conv_lhs => unfold iterNext
  rw [h]

theorem parseSections_position : ∀ (ss1 : List (List Char)) {d : Date}
    {s : List Char} {ss2 : List (List Char)} {out : List RawEntry},
    parseSections d (ss1 ++ s :: ss2) = .ok out → yieldsB s = true →
    ∃ d' es, iterNext d (countYield ss1) = .ok d' ∧
      sectionEntriesOf d' s = .ok es ∧ ∀ e ∈ es, e.start.date = d' := by
  intro ss1
  induction ss1 with
  | nil =>
    intro d s ss2 out h hy
    rw [List.nil_append, parseSections_yield ss2 hy] at h
    cases hse : sectionEntriesOf d s with
    | error e => rw [hse] at h; simp [Except.bind] at h
    | ok es => exact ⟨d, es, rfl, hse, collectLines_dates hse⟩
  | cons s1 ss1 ih =>
    intro d s ss2 out h hy
    rw [List.cons_append] at h
    cases hy1 : yieldsB s1 with
    | false =>
      rw [parseSections_noYield _ hy1] at h
      rw [countYield_cons_false hy1]
      exact ih h hy
    | true =>
      rw [parseSections_yield _ hy1] at h
      cases hse1 : sectionEntriesOf d s1 with
      | error e => rw [hse1] at h; simp [Except.bind] at h
      | ok es1 =>
        rw [hse1] at h
        simp only [Except.bind] at h
        cases hnd : nextDay d with
        | error e => rw [hnd] at h; cases h
        | ok d2 =>
          rw [hnd] at h
          obtain ⟨more, hmore, _⟩ := exceptMap_ok h
          rw [countYield_cons_true hy1, iterNext_succ hnd]
          exact ih hmore hy

/-! ## Shape of the formatted timestamps -/

theorem isDig_digitCh (n : Nat) : isDig (digitCh n) = true := by
  unfold digitCh isDig
  have h : n % 10 < 10 := Nat.mod_lt _ (by omega)
  set k := n % 10 with hk
  interval_cases k <;> decide

theorem isoShapeB_isoFormat_ge {t : DT} (h : 1000 ≤ t.date.year) :
    isoShapeB (isoFormat t) = true := by
  have hmk : (isoFormat t).toList = isoFormatL t := rfl
  unfold isoShapeB
  rw [hmk]
  unfold isoFormatL fmtYear pad2
  rw [if_neg (by omega), if_neg (by omega), if_neg (by omega)]
  simp [isDig_digitCh]

/-! ## The split fuel never runs out -/

theorem litM_le {pat cs r : List Char} (h : litM pat cs = some r) :
    r.length ≤ cs.length := by
  unfold litM at h
  split at h
  · cases h
    simp [List.length_drop]
  · cases h

theorem skipWSg_le (cs : List Char) : (skipWSg cs).length ≤ cs.length := by
  unfold skipWSg
  induction cs with
  | nil => simp
  | cons c r ih =>
    rw [List.dropWhile_cons]
    split
    · exact le_trans ih (by simp)
    · simp

theorem findTo_lt : ∀ {cs r : List Char}, findTo cs = some r →
    r.length < cs.length := by
  intro cs
  induction cs with
  | nil => intro r h; cases h
  | cons c cs ih =>
    intro r h
    unfold findTo at h
    split at h
    · cases h
      cases cs with
      | nil => simp
      | cons c2 cs2 => simp; omega
    · split at h
      · cases h
      · exact Nat.lt_trans (ih h) (by simp)

theorem matchMarker_lt {cs r : List Char} (h : matchMarker cs = some r) :
    r.length < cs.length := by
  unfold matchMarker at h
  cases h1 : litM "Alltime".toList cs with
  | none => simp only [h1] at h; cases h
  | some r1 =>
    simp only [h1] at h
    cases h2 : litM "entries".toList (skipWSg r1) with
    | none => simp only [h2] at h; cases h
    | some r2 =>
      simp only [h2] at h
      cases h3 : litM "from".toList (skipWSg r2) with
      | none => simp only [h3] at h; cases h
      | some r3 =>
        simp only [h3] at h
        have e1 : r1.length ≤ cs.length := litM_le h1
        have e2 : r2.length ≤ r1.length :=
          le_trans (litM_le h2) (skipWSg_le r1)
        have e3 : r3.length ≤ r2.length :=
          le_trans (litM_le h3) (skipWSg_le r2)
        have e4 : r.length < r3.length := findTo_lt h
        omega

theorem splitAux_fuel_irrel : ∀ (f1 f2 : Nat) (acc cs : List Char),
    cs.length ≤ f1 → cs.length ≤ f2 →
    splitAux f1 acc cs = splitAux f2 acc cs := by
  intro f1
  induction f1 with
  | zero =>
    intro f2 acc cs h1 h2
    have hnil : cs = [] := List.length_eq_zero.mp (Nat.le_zero.mp h1)
    subst hnil
    cases f2 <;> rfl
  | succ f1 ih =>
    intro f2 acc cs h1 h2
    cases cs with
    | nil => cases f2 <;> rfl
    | cons c rest =>
      cases f2 with
      | zero => simp at h2
      | succ f2 =>
        cases hm : matchMarker (c :: rest) with
        | some r =>
          have hlt := matchMarker_lt hm
          have h1' : r.length ≤ f1 := by simp at h1 hlt; omega
          have h2' : r.length ≤ f2 := by simp at h2 hlt; omega
          simp only [splitAux, hm]
          rw [ih f2 [] r h1' h2']
        | none =>
          have h1' : rest.length ≤ f1 := by simp at h1; omega
          have h2' : rest.length ≤ f2 := by simp at h2; omega
          simp only [splitAux, hm]
          exact ih f2 (c :: acc) rest h1' h2'

/-! ## A section with entries always advances the date -/

theorem yieldsB_of_entries {d : Date} {s : List Char} {es1 : List RawEntry}
    (hs : sectionSkipped s = false) (hse : sectionEntriesOf d s = .ok es1)
    (hne : es1 ≠ []) : yieldsB s = true := by
  have hex : ∃ l ∈ splitOnNL s, (lineMatch l).isSome = true := by
    by_contra hno
    push_neg at hno
    have hall : ∀ l ∈ splitOnNL s, lineMatch l = none := by
      intro l hl
      have h2 := hno l hl
      cases hlm : lineMatch l with
      | none => rfl
      | some t => rw [hlm] at h2; simp at h2
    have h0 := collectLines_nomatch (d := d) hall
    rw [show collectLines d (splitOnNL s) = sectionEntriesOf d s from rfl,
      hse] at h0
    cases h0
    exact hne rfl
  unfold yieldsB
  rw [hs]
  simpa [List.any_eq_true] using hex

/-! ## Claim theorems -/

/-- C1: for every input text and start date string, every entry in a
successfully returned list has its end datetime strictly after its
start datetime. -/
theorem C1_end_after_start (text startDateStr : String)
    (es : List RawEntry) (h : parse_toggl_pdf text startDateStr = .ok es) :
    ∀ e ∈ es, dtLt e.start e.stop := by
  unfold parse_toggl_pdf at h
  cases hsd : strptimeYMD startDateStr with
  | none => rw [hsd] at h; cases h
  | some d0 =>
    rw [hsd] at h
    exact parseSections_lt _ h

/-- Witness for C1 on a concrete one-entry report. -/
theorem C1_end_after_start_witness :
    dtLt (⟨⟨2024, 11, 5⟩, 10, 0⟩ : DT) ⟨⟨2024, 11, 5⟩, 11, 0⟩ :=
  C1_end_after_start "TIME\na 1:2:3 1000 1100\n" "2024-11-05"
    [⟨['a'], ⟨⟨2024, 11, 5⟩, 10, 0⟩, ⟨⟨2024, 11, 5⟩, 11, 0⟩⟩] rfl
    ⟨['a'], ⟨⟨2024, 11, 5⟩, 10, 0⟩, ⟨⟨2024, 11, 5⟩, 11, 0⟩⟩
    (List.mem_singleton.mpr rfl)

/-- C2 counterexample: two one-entry sections.  Between the two
consecutive parsed entries the date advances by one day although the
new start (12:00, day 6) is not earlier than the prior end (11:00,
day 5) — neither as a full datetime nor as a clock time — refuting the
claimed "advances if and only if the new start precedes the prior
end". -/
theorem C2_rollover_cex :
    parse_toggl_pdf
        "TIME\na 1:2:3 1000 1100\nAlltimeentriesfromto\nTIME\nb 1:2:3 1200 1300\n"
        "2024-11-05" =
      .ok [⟨['a'], ⟨⟨2024, 11, 5⟩, 10, 0⟩, ⟨⟨2024, 11, 5⟩, 11, 0⟩⟩,
           ⟨['b'], ⟨⟨2024, 11, 6⟩, 12, 0⟩, ⟨⟨2024, 11, 6⟩, 13, 0⟩⟩] ∧
    ¬ dtLt (⟨⟨2024, 11, 6⟩, 12, 0⟩ : DT) ⟨⟨2024, 11, 5⟩, 11, 0⟩ ∧
    ¬ dtLt (⟨⟨2024, 11, 5⟩, 12, 0⟩ : DT) ⟨⟨2024, 11, 5⟩, 11, 0⟩ ∧
    (⟨2024, 11, 6⟩ : Date) ≠ ⟨2024, 11, 5⟩ :=
  ⟨rfl, by decide, by decide, by decide⟩

/-- C2 amended: the date never advances between consecutive entries of
the same section (they all carry the current date), and it advances by
exactly one day after every section that yields entries, independently
of any comparison between a new start time and the prior end time (that
comparison only moves a single entry's end across midnight). -/
theorem C2_rollover_amended (d : Date) (s : List Char)
    (rest : List (List Char)) (es1 : List RawEntry) (d2 : Date)
    (hs : sectionSkipped s = false) (hse : sectionEntriesOf d s = .ok es1)
    (hne : es1 ≠ []) (hnd : nextDay d = .ok d2) :
    parseSections d (s :: rest) =
      Except.map (fun more => dedupAux [] es1 ++ more)
        (parseSections d2 rest) ∧
    ∀ e ∈ es1, e.start.date = d := by
  refine ⟨?_, collectLines_dates hse⟩
  rw [parseSections_yield rest (yieldsB_of_entries hs hse hne), hse]
  simp only [Except.bind]
  rw [hnd]

/-- Witness for C2's amended statement on a concrete section. -/
theorem C2_rollover_amended_witness :
    parseSections ⟨2024, 11, 5⟩ ["TIME\na 1:2:3 1000 1100".toList] =
      Except.map
        (fun more =>
          dedupAux []
            [⟨['a'], ⟨⟨2024, 11, 5⟩, 10, 0⟩, ⟨⟨2024, 11, 5⟩, 11, 0⟩⟩] ++ more)
        (parseSections ⟨2024, 11, 6⟩ []) :=
  (C2_rollover_amended ⟨2024, 11, 5⟩ "TIME\na 1:2:3 1000 1100".toList []
    [⟨['a'], ⟨⟨2024, 11, 5⟩, 10, 0⟩, ⟨⟨2024, 11, 5⟩, 11, 0⟩⟩]
    ⟨2024, 11, 6⟩ rfl rfl (by simp) rfl).1

/-- C3: the entries a section contributes are its deduplicated
`section_entries`: no two surviving entries share the
(name, start, end) triple (which is the whole `RawEntry`), the
survivors appear as a sublist (original relative order), and every
section entry is still represented (the first occurrence survives). -/
theorem C3_dedup_per_section (d : Date) (s : List Char)
    (rest : List (List Char)) (out es1 : List RawEntry)
    (h : parseSections d (s :: rest) = .ok out)
    (hs : sectionSkipped s = false)
    (hse : sectionEntriesOf d s = .ok es1) (hne : es1 ≠ []) :
    ∃ restOut, out = dedupAux [] es1 ++ restOut ∧
      (dedupAux [] es1).Nodup ∧ (dedupAux [] es1).Sublist es1 ∧
      ∀ e ∈ es1, e ∈ dedupAux [] es1 := by
  obtain ⟨d2, more, hnd, hmore, hout⟩ := parseSections_cons_ok h hs hse hne
  exact ⟨more, hout, dedupAux_nodup es1 [], dedupAux_sublist es1 [],
    fun e he => dedupAux_complete es1 [] e he (by simp)⟩

/-- Witness for C3 on a section with a duplicated line. -/
theorem C3_dedup_per_section_witness :
    ∃ restOut,
      [(⟨['a'], ⟨⟨2024, 11, 5⟩, 10, 0⟩, ⟨⟨2024, 11, 5⟩, 11, 0⟩⟩ : RawEntry)] =
        dedupAux []
          [⟨['a'], ⟨⟨2024, 11, 5⟩, 10, 0⟩, ⟨⟨2024, 11, 5⟩, 11, 0⟩⟩,
           ⟨['a'], ⟨⟨2024, 11, 5⟩, 10, 0⟩, ⟨⟨2024, 11, 5⟩, 11, 0⟩⟩] ++ restOut ∧
      (dedupAux []
        [⟨['a'], ⟨⟨2024, 11, 5⟩, 10, 0⟩, ⟨⟨2024, 11, 5⟩, 11, 0⟩⟩,
         ⟨['a'], ⟨⟨2024, 11, 5⟩, 10, 0⟩, ⟨⟨2024, 11, 5⟩, 11, 0⟩⟩]).Nodup ∧
      (dedupAux []
        [⟨['a'], ⟨⟨2024, 11, 5⟩, 10, 0⟩, ⟨⟨2024, 11, 5⟩, 11, 0⟩⟩,
         ⟨['a'], ⟨⟨2024, 11, 5⟩, 10, 0⟩, ⟨⟨2024, 11, 5⟩, 11, 0⟩⟩]).Sublist
        [⟨['a'], ⟨⟨2024, 11, 5⟩, 10, 0⟩, ⟨⟨2024, 11, 5⟩, 11, 0⟩⟩,
         ⟨['a'], ⟨⟨2024, 11, 5⟩, 10, 0⟩, ⟨⟨2024, 11, 5⟩, 11, 0⟩⟩] ∧
      ∀ e ∈ [(⟨['a'], ⟨⟨2024, 11, 5⟩, 10, 0⟩, ⟨⟨2024, 11, 5⟩, 11, 0⟩⟩ : RawEntry),
             ⟨['a'], ⟨⟨2024, 11, 5⟩, 10, 0⟩, ⟨⟨2024, 11, 5⟩, 11, 0⟩⟩],
        e ∈ dedupAux []
          [⟨['a'], ⟨⟨2024, 11, 5⟩, 10, 0⟩, ⟨⟨2024, 11, 5⟩, 11, 0⟩⟩,
           ⟨['a'], ⟨⟨2024, 11, 5⟩, 10, 0⟩, ⟨⟨2024, 11, 5⟩, 11, 0⟩⟩] :=
  C3_dedup_per_section ⟨2024, 11, 5⟩
    "TIME\na 1:2:3 1000 1100\na 1:2:3 1000 1100".toList []
    [⟨['a'], ⟨⟨2024, 11, 5⟩, 10, 0⟩, ⟨⟨2024, 11, 5⟩, 11, 0⟩⟩]
    [⟨['a'], ⟨⟨2024, 11, 5⟩, 10, 0⟩, ⟨⟨2024, 11, 5⟩, 11, 0⟩⟩,
     ⟨['a'], ⟨⟨2024, 11, 5⟩, 10, 0⟩, ⟨⟨2024, 11, 5⟩, 11, 0⟩⟩]
    rfl rfl rfl (by simp)

/-- C4 counterexample: the valid start date "0005-01-02" is accepted
by `strptime`, and the platform `strftime` prints the year unpadded,
so the program emits the startTime "5-01-02T10:00:00.000Z" — not a
timestamp of the ISO-8601 shape YYYY-MM-DDTHH:MM:00.000Z that the
claim asserts for every record. -/
theorem C4_record_fields_cex :
    emitTimekeep "TIME\na 1:2:3 1000 1100\n" "0005-01-02" =
      .ok (Json.jobj [("entries", Json.jarr
        [Json.jobj [("name", Json.jstr "a"),
                    ("startTime", Json.jstr "5-01-02T10:00:00.000Z"),
                    ("endTime", Json.jstr "5-01-02T11:00:00.000Z"),
                    ("subEntries", Json.null)]])]) ∧
    isoShapeB "5-01-02T10:00:00.000Z" = false :=
  ⟨rfl, rfl⟩

/-- C4 (amended): on success the emitted JSON is the object
{"entries": [...]} whose list holds, in parse order, one record per
entry with exactly the four fields name / startTime / endTime /
subEntries, subEntries being null; the two timestamp strings have the
fixed ISO-8601 shape YYYY-MM-DDTHH:MM:00.000Z whenever their year has
four digits (year at least 1000) — for earlier years the platform
strftime emits the year unpadded, as the counterexample exhibits. -/
theorem C4_record_fields (text startDateStr : String) (es : List RawEntry)
    (h : parse_toggl_pdf text startDateStr = .ok es) :
    emitTimekeep text startDateStr =
      .ok (Json.jobj [("entries", Json.jarr (es.map entryDict))]) ∧
    ∀ e ∈ es,
      entryDict e = Json.jobj
        [("name", Json.jstr (String.mk e.name)),
         ("startTime", Json.jstr (isoFormat e.start)),
         ("endTime", Json.jstr (isoFormat e.stop)),
         ("subEntries", Json.null)] ∧
      (1000 ≤ e.start.date.year → isoShapeB (isoFormat e.start) = true) ∧
      (1000 ≤ e.stop.date.year → isoShapeB (isoFormat e.stop) = true) := by
  refine ⟨?_, fun e he =>
    ⟨rfl, fun hy => isoShapeB_isoFormat_ge hy,
     fun hy => isoShapeB_isoFormat_ge hy⟩⟩
  unfold emitTimekeep
  rw [h]
  rfl

/-- Witness for C4 on a concrete one-entry report. -/
theorem C4_record_fields_witness :
    emitTimekeep "TIME\na 1:2:3 1000 1100\n" "2024-11-05" =
      .ok (Json.jobj [("entries", Json.jarr
        ([⟨['a'], ⟨⟨2024, 11, 5⟩, 10, 0⟩, ⟨⟨2024, 11, 5⟩, 11, 0⟩⟩].map
          entryDict))]) :=
  (C4_record_fields "TIME\na 1:2:3 1000 1100\n" "2024-11-05"
    [⟨['a'], ⟨⟨2024, 11, 5⟩, 10, 0⟩, ⟨⟨2024, 11, 5⟩, 11, 0⟩⟩] rfl).1

/-- C5: a line that does not match the task-line regex produces no
entry and raises no error: processing it returns `ok none`, and the
whole line loop of a section behaves as if the line were absent. -/
theorem C5_malformed_skipped (d : Date) (l : List Char)
    (ls1 ls2 : List (List Char)) (h : lineMatch l = none) :
    processLine d l = .ok none ∧
    collectLines d (ls1 ++ l :: ls2) = collectLines d (ls1 ++ ls2) :=
  ⟨processLine_none h, collectLines_skip ls1 ls2 h⟩

/-- Witness for C5 on a concrete malformed line. -/
theorem C5_malformed_skipped_witness :
    processLine ⟨2024, 11, 5⟩ "hello world".toList = .ok none ∧
    collectLines ⟨2024, 11, 5⟩
        (["a 1:2:3 1000 1100".toList] ++ "hello world".toList :: []) =
      collectLines ⟨2024, 11, 5⟩ (["a 1:2:3 1000 1100".toList] ++ []) :=
  C5_malformed_skipped ⟨2024, 11, 5⟩ "hello world".toList
    ["a 1:2:3 1000 1100".toList] [] rfl

/-- C8: a matched line whose end clock time precedes its start clock
time on the current date gets its end moved to the following calendar
day, and the remaining lines of the section are still processed with
the unchanged current date. -/
theorem C8_overnight (d : Date) (line pre : List Char) (sh sm eh em : Nat)
    (e : RawEntry)
    (hlm : lineMatch line = some (pre, (sh, sm), (eh, em)))
    (hov : dtLt (⟨d, eh, em⟩ : DT) ⟨d, sh, sm⟩)
    (hp : processLine d line = .ok (some e)) :
    (∃ d2, nextDay d = .ok d2 ∧ e.start = ⟨d, sh, sm⟩ ∧
      e.stop = ⟨d2, eh, em⟩) ∧
    (∀ (ls : List (List Char)) (es2 : List RawEntry),
      collectLines d (line :: ls) = .ok es2 →
      ∃ rest2, es2 = e :: rest2 ∧ collectLines d ls = .ok rest2) := by
  obtain ⟨pre2, sh2, sm2, eh2, em2, hlm2, hmk⟩ := processLine_ok_some hp
  rw [hlm] at hlm2
  cases hlm2
  obtain ⟨hname, hstart, hlt, hovC, hmin⟩ := mkEntry_spec hmk
  obtain ⟨d2, hnd, hstop⟩ := hovC hov
  refine ⟨⟨d2, hnd, hstart, hstop⟩, ?_⟩
  intro ls es2 hcl
  unfold collectLines at hcl
  rw [hp] at hcl
  obtain ⟨rest2, hrest2, hcons⟩ := exceptMap_ok hcl
  exact ⟨rest2, hcons, hrest2⟩

/-- Witness for C8 on a concrete overnight line (23:00 to 01:00). -/
theorem C8_overnight_witness :
    ∃ d2, nextDay ⟨2024, 11, 5⟩ = .ok d2 ∧
      (⟨['a'], ⟨⟨2024, 11, 5⟩, 23, 0⟩, ⟨⟨2024, 11, 6⟩, 1, 0⟩⟩ :
        RawEntry).start = ⟨⟨2024, 11, 5⟩, 23, 0⟩ ∧
      (⟨['a'], ⟨⟨2024, 11, 5⟩, 23, 0⟩, ⟨⟨2024, 11, 6⟩, 1, 0⟩⟩ :
        RawEntry).stop = ⟨d2, 1, 0⟩ :=
  (C8_overnight ⟨2024, 11, 5⟩ "a 1:2:3 2300 0100".toList ['a'] 23 0 1 0
    ⟨['a'], ⟨⟨2024, 11, 5⟩, 23, 0⟩, ⟨⟨2024, 11, 6⟩, 1, 0⟩⟩
    rfl (by decide) rfl).1

/-- C9: a matched line with equal start and end clock times yields an
entry whose end is its start plus one minute (the Python
`end_dt += timedelta(minutes=1)` widening), and consequently — at the
minute granularity of all emitted datetimes — every returned entry's
end is strictly after its start, i.e. its duration is at least one
minute. -/
theorem C9_subminute :
    (∀ (d : Date) (line pre : List Char) (hh mm : Nat) (e : RawEntry),
      lineMatch line = some (pre, (hh, mm), (hh, mm)) →
      processLine d line = .ok (some e) →
      e.start = ⟨d, hh, mm⟩ ∧ addMinute ⟨d, hh, mm⟩ = .ok e.stop) ∧
    (∀ (text startDateStr : String) (es : List RawEntry),
      parse_toggl_pdf text startDateStr = .ok es →
      ∀ e ∈ es, dtLt e.start e.stop) := by
  constructor
  · intro d line pre hh mm e hlm hp
    obtain ⟨pre2, sh2, sm2, eh2, em2, hlm2, hmk⟩ := processLine_ok_some hp
    rw [hlm] at hlm2
    cases hlm2
    obtain ⟨hname, hstart, hlt, hovC, hmin⟩ := mkEntry_spec hmk
    exact ⟨hstart, hmin rfl rfl⟩
  · intro text sd es h e he
    unfold parse_toggl_pdf at h
    cases hsd : strptimeYMD sd with
    | none => rw [hsd] at h; cases h
    | some d0 =>
      rw [hsd] at h
      exact parseSections_lt _ h e he

/-- Witness for C9 on a concrete zero-length line (10:15 to 10:15). -/
theorem C9_subminute_witness :
    ((⟨['a'], ⟨⟨2024, 11, 5⟩, 10, 15⟩, ⟨⟨2024, 11, 5⟩, 10, 16⟩⟩ :
        RawEntry).start = ⟨⟨2024, 11, 5⟩, 10, 15⟩ ∧
      addMinute ⟨⟨2024, 11, 5⟩, 10, 15⟩ =
        .ok (⟨['a'], ⟨⟨2024, 11, 5⟩, 10, 15⟩, ⟨⟨2024, 11, 5⟩, 10, 16⟩⟩ :
          RawEntry).stop) ∧
    dtLt (⟨⟨2024, 11, 5⟩, 10, 15⟩ : DT) ⟨⟨2024, 11, 5⟩, 10, 16⟩ :=
  ⟨C9_subminute.1 ⟨2024, 11, 5⟩ "a 1:2:3 1015 1015".toList ['a'] 10 15
    ⟨['a'], ⟨⟨2024, 11, 5⟩, 10, 15⟩, ⟨⟨2024, 11, 5⟩, 10, 16⟩⟩ rfl rfl,
   C9_subminute.2 "TIME\na 1:2:3 1015 1015\n" "2024-11-05"
    [⟨['a'], ⟨⟨2024, 11, 5⟩, 10, 15⟩, ⟨⟨2024, 11, 5⟩, 10, 16⟩⟩] rfl
    ⟨['a'], ⟨⟨2024, 11, 5⟩, 10, 15⟩, ⟨⟨2024, 11, 5⟩, 10, 16⟩⟩
    (List.mem_singleton.mpr rfl)⟩

/-- C10: a section that yields no entries (blank, headerless, or
without a matching line) leaves the parse state unchanged; a yielding
section contributes its entries and hands the successor date to the
rest; consequently, on a successful parse, the date a yielding section
is processed with is the start date advanced by exactly the number of
preceding entry-yielding sections, and all its entries carry that
date. -/
theorem C10_date_advance :
    (∀ (d : Date) (s : List Char) (rest : List (List Char)),
      yieldsB s = false →
      parseSections d (s :: rest) = parseSections d rest) ∧
    (∀ (d : Date) (s : List Char) (rest : List (List Char)),
      yieldsB s = true →
      parseSections d (s :: rest) =
        Except.bind (sectionEntriesOf d s) (fun es =>
          Except.bind (nextDay d) (fun d2 =>
            Except.map (fun more => dedupAux [] es ++ more)
              (parseSections d2 rest)))) ∧
    (∀ (ss1 : List (List Char)) (d : Date) (s : List Char)
      (ss2 : List (List Char)) (out : List RawEntry),
      parseSections d (ss1 ++ s :: ss2) = .ok out → yieldsB s = true →
      ∃ d' es, iterNext d (countYield ss1) = .ok d' ∧
        sectionEntriesOf d' s = .ok es ∧ ∀ e ∈ es, e.start.date = d') :=
  ⟨fun _ _ rest h => parseSections_noYield rest h,
   fun _ _ rest h => parseSections_yield rest h,
   fun ss1 _ _ _ _ h hy => parseSections_position ss1 h hy⟩

/-- Witness for C10: a skipped section, a yielding section, and the
position of the second yielding section in a two-section report. -/
theorem C10_date_advance_witness :
    parseSections ⟨2024, 11, 5⟩ ["hello".toList, "TIME\nz 1 min 0900 0930".toList] =
      parseSections ⟨2024, 11, 5⟩ ["TIME\nz 1 min 0900 0930".toList] ∧
    parseSections ⟨2024, 11, 5⟩ ["TIME\nz 1 min 0900 0930".toList] =
      Except.bind (sectionEntriesOf ⟨2024, 11, 5⟩ "TIME\nz 1 min 0900 0930".toList)
        (fun es =>
          Except.bind (nextDay ⟨2024, 11, 5⟩) (fun d2 =>
            Except.map (fun more => dedupAux [] es ++ more)
              (parseSections d2 []))) ∧
    ∃ d' es, iterNext ⟨2024, 11, 5⟩
        (countYield ["TIME\na 1:2:3 1000 1100".toList]) = .ok d' ∧
      sectionEntriesOf d' "TIME\nb 1:2:3 1200 1300".toList = .ok es ∧
      ∀ e ∈ es, e.start.date = d' :=
  ⟨C10_date_advance.1 ⟨2024, 11, 5⟩ "hello".toList
    ["TIME\nz 1 min 0900 0930".toList] rfl,
   C10_date_advance.2.1 ⟨2024, 11, 5⟩ "TIME\nz 1 min 0900 0930".toList [] rfl,
   C10_date_advance.2.2 ["TIME\na 1:2:3 1000 1100".toList] ⟨2024, 11, 5⟩
    "TIME\nb 1:2:3 1200 1300".toList []
    [⟨['a'], ⟨⟨2024, 11, 5⟩, 10, 0⟩, ⟨⟨2024, 11, 5⟩, 11, 0⟩⟩,
     ⟨['b'], ⟨⟨2024, 11, 6⟩, 12, 0⟩, ⟨⟨2024, 11, 6⟩, 13, 0⟩⟩] rfl rfl⟩
